import Mathlib

/-! # The per-module execution context of `blueprint` (`module_ctx.go`)

A shallow embedding of `moduleContext` and its methods, followed by the
properties of the context that the specification states.

Conventions of the embedding:

* a method with a pointer receiver becomes a function from the receiver's
  state to a `Call`: the state of the context when the call ends, and whether
  it ended by returning or by panicking;
* Go maps become functions into `Option` (`none` is "key absent");
* declarations that `module_ctx.go` uses but that live in other files of the
  package (the scope, its operations, the parameter types) are the fields of
  `Externals`;
* the goroutine's call stack, which `ReparentToCallerPackage` inspects, is an
  explicit argument.
-/

namespace Blueprint

/-! ## Data model -/

/-- The identity of a value of the interface type `Module`. Interface values
are map keys and are compared by identity. -/
abbrev Module := Nat

/-- The type `scanner.Position` of `text/scanner`. -/
structure Position where
  Filename : String
  Offset : Int
  Line : Int
  Column : Int
deriving DecidableEq, Repr

/-- The value `fmt.Errorf(format, args...)`, kept unformatted. -/
structure FmtError where
  format : String
  args : List String
deriving DecidableEq, Repr

/-- Modelled from the spec: the declaration of `Error` is outside
`module_ctx.go`, which builds the value as `&Error{Err: ..., Pos: ...}`: an
underlying message plus a source position. -/
structure Error where
  Err : FmtError
  Pos : Position
deriving DecidableEq, Repr

/-- Modelled from the spec: the declaration of a module's properties is outside
`module_ctx.go`, which reads `info.properties.Name`, the declared name. -/
structure moduleProperties where
  Name : String
deriving DecidableEq, Repr

/-- Modelled from the spec: the declaration of `moduleInfo` is outside
`module_ctx.go`, which reads these fields of it: the properties with the
declared name, the path of the declaring file, the declaration position and
the map from a property name to the position where the property was set. -/
structure moduleInfo where
  properties : moduleProperties
  relBlueprintsFile : String
  pos : Position
  propertyPos : String → Option Position

/-- One frame of a goroutine's call stack: the package and the function that
is executing. -/
structure Frame where
  pkgPath : String
  funcName : String
deriving DecidableEq, Repr

/-- Modelled from the spec: the type `Context` (the global graph) is declared
outside `module_ctx.go`. It owns the registry `moduleInfo` from a module to its
registered info (a map whose values are pointers, so an unregistered module
yields the nil pointer, here `none`) and the dependency edges, `(a, b)` for
"`a` depends on `b`", in the order they were added. -/
structure Context where
  moduleInfo : Module → Option moduleInfo
  edges : List (Module × Module)

namespace Context

/-- The direct dependencies of a module, in edge order. -/
def directDeps (c : Context) (m : Module) : List Module :=
  (c.edges.filter (fun e => decide (e.1 = m))).map (fun e => e.2)

/-- Modelled from the spec: the graph's traversal is outside `module_ctx.go`.
One step of the depth-first walk, on a state made of the modules reached so
far and of what the visit function has built: a module reached before is
passed over, so each is visited once; otherwise its dependencies are walked
and then the module is visited. The first argument bounds the depth of the
recursion. -/
def walk {σ : Type} (c : Context) (visit : σ → Module → σ) :
    Nat → List Module × σ → Module → List Module × σ
  | 0, st, _ => st
  | fuel + 1, st, m =>
    if m ∈ st.1 then st
    else
      let r := (c.directDeps m).foldl (walk c visit fuel) (m :: st.1, st.2)
      (r.1, visit r.2 m)

/-- Modelled from the spec: the graph's filtered traversal is outside
`module_ctx.go`. As `walk`, but a module for which `pred` returns false is
neither visited nor walked past. -/
def walkIf {σ : Type} (c : Context) (pred : Module → Bool) (visit : σ → Module → σ) :
    Nat → List Module × σ → Module → List Module × σ
  | 0, st, _ => st
  | fuel + 1, st, m =>
    if m ∈ st.1 then st
    else if pred m then
      let r := (c.directDeps m).foldl (walkIf c pred visit fuel) (m :: st.1, st.2)
      (r.1, visit r.2 m)
    else st

/-- Modelled from the spec: `visitDepsDepthFirst` is outside `module_ctx.go`.
It traverses the dependency subgraph of `module` depth-first, calling `visit`
on the dependencies; `s` is the state the visit function works on. No walk
nests deeper than there are edges. -/
def visitDepsDepthFirst {σ : Type} (c : Context) (module : Module)
    (visit : σ → Module → σ) (s : σ) : σ :=
  ((c.directDeps module).foldl (walk c visit (c.edges.length + 1)) ([], s)).2

/-- Modelled from the spec: `visitDepsDepthFirstIf` is outside
`module_ctx.go`. The filtered variant of `visitDepsDepthFirst`. -/
def visitDepsDepthFirstIf {σ : Type} (c : Context) (module : Module)
    (pred : Module → Bool) (visit : σ → Module → σ) (s : σ) : σ :=
  ((c.directDeps module).foldl (walkIf c pred visit (c.edges.length + 1)) ([], s)).2

/-- The module `b` is a reachable dependency of `a`: a direct dependency, or a
direct dependency of a reachable one. -/
def reachableDep (c : Context) (a b : Module) : Prop :=
  Relation.TransGen (fun x y => y ∈ c.directDeps x) a b

/-- The visit function that records the modules it is called on, in order. -/
def record (acc : List Module) (x : Module) : List Module :=
  acc ++ [x]

/-- The number of edges that leave a module not reached yet: a bound on how
deep the walk can still nest. -/
def unreached (c : Context) (reached : List Module) : Nat :=
  c.edges.countP (fun e => decide (e.1 ∉ reached))

/-- What a recording walk from the modules `start`, begun with the modules
`reached` marked, has done when it ends in `r` (the modules then marked, and
the modules visited): the marked modules are the ones marked before and the
visited ones; a visited module was not marked before, is visited once, and is
one of `start` or reachable from one of them. -/
def Visits (c : Context) (reached start : List Module) (r : List Module × List Module) :
    Prop :=
  (∀ y, y ∈ r.1 ↔ y ∈ reached ∨ y ∈ r.2) ∧
  (∀ y ∈ r.2, y ∉ reached) ∧
  r.2.Nodup ∧
  (∀ y ∈ r.2, ∃ z ∈ start, Relation.ReflTransGen (fun a b => b ∈ c.directDeps a) z y)

/-- The modules `after` marked by a walk from `start`, begun with `reached`
marked, cover the walk: the modules of `start` are marked, and every direct
dependency of a newly marked module is marked. -/
def Covers (c : Context) (reached start after : List Module) : Prop :=
  (∀ z ∈ start, z ∈ after) ∧
  (∀ y ∈ after, y ∉ reached → ∀ z ∈ c.directDeps y, z ∈ after)

end Context

/-- What `module_ctx.go` takes from the rest of the package: the types of the
configuration value, of the local scope, of the objects a declaration
produces and of the parameters, and the scope operations. A scope operation
works on `*localScope`, so it returns the scope it leaves behind next to its
Go results `(value, err)`. `ReparentToCallerPackage` has no result; besides
`skip` it reads the call stack, passed as seen from inside it (its own frame
first). -/
structure Externals where
  Config : Type
  Scope : Type
  Variable : Type
  Rule : Type
  BuildDef : Type
  RuleParams : Type
  BuildParams : Type
  ScopeErr : Type
  ReparentToCallerPackage : Scope → Nat → List Frame → Scope
  AddLocalVariable : Scope → String → String → Scope × Except ScopeErr Variable
  AddLocalRule : Scope → String → RuleParams → List String → Scope × Except ScopeErr Rule
  parseBuildParams : Scope → BuildParams → Scope × Except ScopeErr BuildDef

/-- Modelled from the spec: the declaration of `localBuildActions` is outside
`module_ctx.go`, which appends to its three fields: the variables, rules and
build edges a module has declared, each in declaration order. The field
`variables` is written `variables_` here. -/
structure localBuildActions (E : Externals) where
  variables_ : List E.Variable
  rules : List E.Rule
  buildDefs : List E.BuildDef

/-- The struct `moduleContext`. The field `info` is the info the context was
bound to when the graph constructed it. -/
structure moduleContext (E : Externals) where
  context : Context
  config : E.Config
  module : Module
  scope : E.Scope
  info : moduleInfo
  ninjaFileDeps : List String
  errs : List Error
  actionDefs : localBuildActions E

/-- The value a method of the context panics with. -/
inductive PanicValue (E : Externals) where
  /-- The panic `panic(fmt.Errorf("property %q was not set for this module", property))`. -/
  | propertyNotSet (property : String)
  /-- The runtime error of reading a field through a nil `*moduleInfo`. -/
  | nilDereference
  /-- The panic `panic(err)` with the error of a scope operation. -/
  | scopeError (err : E.ScopeErr)

/-- The end of a method call: the context as the call left it, and either the
returned value or the value of the panic. -/
structure Call (E : Externals) (α : Type) where
  ctx : moduleContext E
  outcome : Except (PanicValue E) α

/-- The call returned. -/
def Call.returned {E : Externals} {α : Type} (c : Call E α) : Bool :=
  match c.outcome with
  | .ok _ => true
  | .error _ => false

/-- The call panicked. -/
def Call.panicked {E : Externals} {α : Type} (c : Call E α) : Bool :=
  match c.outcome with
  | .ok _ => false
  | .error _ => true

/-- Modelled from the spec: the constructor of a module context is outside
`module_ctx.go`. Construction binds the context to the graph, the
configuration, one module, a scope and the module's info, with a fresh empty
Build Action Set, no accumulated error and no extra file dependency. -/
def newModuleContext {E : Externals} (context : Context) (config : E.Config)
    (module : Module) (scope : E.Scope) (info : moduleInfo) : moduleContext E :=
  { context := context, config := config, module := module, scope := scope,
    info := info, ninjaFileDeps := [], errs := [],
    actionDefs := { variables_ := [], rules := [], buildDefs := [] } }

/-! ## The methods of `moduleContext` -/

namespace moduleContext

variable {E : Externals}

/-- The method `ModuleName`: the name in the bound module info. -/
def ModuleName (m : moduleContext E) : String :=
  m.info.properties.Name

/-- The method `OtherModuleName`: the lookup yields a nil pointer for an unregistered
module, and reading `info.properties.Name` through it panics. -/
def OtherModuleName (m : moduleContext E) (module : Module) : Call E String :=
  match m.context.moduleInfo module with
  | none => { ctx := m, outcome := .error .nilDereference }
  | some info => { ctx := m, outcome := .ok info.properties.Name }

/-- The method `Config`: the configuration value, passed through. -/
def Config (m : moduleContext E) : E.Config :=
  m.config

/-- The method `Errorf`: appends an error at the given position. -/
def Errorf (m : moduleContext E) (pos : Position) (format : String)
    (args : List String) : Call E Unit :=
  { ctx := { m with errs := m.errs ++ [{ Err := { format := format, args := args }, Pos := pos }] },
    outcome := .ok () }

/-- The method `ModuleErrorf`: appends an error at `m.info.pos`. -/
def ModuleErrorf (m : moduleContext E) (format : String) (args : List String) :
    Call E Unit :=
  { ctx := { m with errs := m.errs ++ [{ Err := { format := format, args := args }, Pos := m.info.pos }] },
    outcome := .ok () }

/-- The method `PropertyErrorf`: looks the property up in `m.info.propertyPos`,
panics when it is not there, and otherwise appends an error at the position
found. -/
def PropertyErrorf (m : moduleContext E) (property format : String)
    (args : List String) : Call E Unit :=
  match m.info.propertyPos property with
  | none => { ctx := m, outcome := .error (.propertyNotSet property) }
  | some pos =>
    { ctx := { m with errs := m.errs ++ [{ Err := { format := format, args := args }, Pos := pos }] },
      outcome := .ok () }

/-- The method `OtherModuleErrorf`: `info.pos` is read while the argument of `append` is
built, so a nil `info` panics before `m.errs` is assigned. -/
def OtherModuleErrorf (m : moduleContext E) (module : Module) (format : String)
    (args : List String) : Call E Unit :=
  match m.context.moduleInfo module with
  | none => { ctx := m, outcome := .error .nilDereference }
  | some info =>
    { ctx := { m with errs := m.errs ++ [{ Err := { format := format, args := args }, Pos := info.pos }] },
      outcome := .ok () }

/-- The method `Failed`: `len(m.errs) > 0`. -/
def Failed (m : moduleContext E) : Bool :=
  decide (m.errs.length > 0)

/-- The call stack as `ReparentToCallerPackage` sees it when the method
`method` of the context calls it: its own frame, the frame of the method, and
then `callers`, the stack at the call of the method (innermost frame first). -/
def stackInside (method : String) (callers : List Frame) : List Frame :=
  { pkgPath := "blueprint", funcName := "(*localScope).ReparentToCallerPackage" } ::
    { pkgPath := "blueprint", funcName := method } :: callers

/-- The method `Variable`: reparents the scope to the caller, adds the local
variable, panics with the error if there is one, and otherwise appends the
variable to `m.actionDefs.variables`. -/
def Variable (m : moduleContext E) (callers : List Frame) (name value : String) :
    Call E Unit :=
  let skip := 2
  let reparented := E.ReparentToCallerPackage m.scope skip
    (stackInside "(*moduleContext).Variable" callers)
  match E.AddLocalVariable reparented name value with
  | (scope, .error err) =>
    { ctx := { m with scope := scope }, outcome := .error (.scopeError err) }
  | (scope, .ok v) =>
    { ctx := { m with
        scope := scope,
        actionDefs := { m.actionDefs with variables_ := m.actionDefs.variables_ ++ [v] } },
      outcome := .ok () }

/-- The method `Rule`: reparents the scope to the caller, adds the local rule,
panics with the error if there is one, and otherwise appends the rule to
`m.actionDefs.rules` and returns it. -/
def Rule (m : moduleContext E) (callers : List Frame) (name : String)
    (params : E.RuleParams) (argNames : List String) : Call E E.Rule :=
  let skip := 2
  let reparented := E.ReparentToCallerPackage m.scope skip
    (stackInside "(*moduleContext).Rule" callers)
  match E.AddLocalRule reparented name params argNames with
  | (scope, .error err) =>
    { ctx := { m with scope := scope }, outcome := .error (.scopeError err) }
  | (scope, .ok r) =>
    { ctx := { m with
        scope := scope,
        actionDefs := { m.actionDefs with rules := m.actionDefs.rules ++ [r] } },
      outcome := .ok r }

/-- The method `Build`: reparents the scope to the caller, parses the build
parameters, panics with the error if there is one, and otherwise appends the
build edge to `m.actionDefs.buildDefs`. -/
def Build (m : moduleContext E) (callers : List Frame) (params : E.BuildParams) :
    Call E Unit :=
  let skip := 2
  let reparented := E.ReparentToCallerPackage m.scope skip
    (stackInside "(*moduleContext).Build" callers)
  match E.parseBuildParams reparented params with
  | (scope, .error err) =>
    { ctx := { m with scope := scope }, outcome := .error (.scopeError err) }
  | (scope, .ok d) =>
    { ctx := { m with
        scope := scope,
        actionDefs := { m.actionDefs with buildDefs := m.actionDefs.buildDefs ++ [d] } },
      outcome := .ok () }

/-- The method `VisitDepsDepthFirst`: the graph traverses from `m.module`; the
visit function works on a state `s`. -/
def VisitDepsDepthFirst {σ : Type} (m : moduleContext E) (visit : σ → Module → σ)
    (s : σ) : σ :=
  m.context.visitDepsDepthFirst m.module visit s

/-- The method `VisitDepsDepthFirstIf`: the graph traverses from `m.module`,
filtered by `pred`. -/
def VisitDepsDepthFirstIf {σ : Type} (m : moduleContext E) (pred : Module → Bool)
    (visit : σ → Module → σ) (s : σ) : σ :=
  m.context.visitDepsDepthFirstIf m.module pred visit s

/-- The modules `VisitDepsDepthFirst` calls the visit function on, in the
order of the calls. -/
def visitedByDepthFirst (m : moduleContext E) : List Module :=
  m.VisitDepsDepthFirst Context.record []

/-- The modules `VisitDepsDepthFirstIf` calls the visit function on, in the
order of the calls. -/
def visitedByDepthFirstIf (m : moduleContext E) (pred : Module → Bool) : List Module :=
  m.VisitDepsDepthFirstIf pred Context.record []

/-- The method `AddNinjaFileDeps`: appends to `m.ninjaFileDeps`. -/
def AddNinjaFileDeps (m : moduleContext E) (deps : List String) : Call E Unit :=
  { ctx := { m with ninjaFileDeps := m.ninjaFileDeps ++ deps }, outcome := .ok () }

end moduleContext

/-! ## Sequences of calls -/

/-- One call of a state-changing method of the context, with its arguments.
For `Variable`, `Rule` and `Build`, `callers` is the call stack at the call. -/
inductive Op (E : Externals) where
  | Errorf (pos : Position) (format : String) (args : List String)
  | ModuleErrorf (format : String) (args : List String)
  | PropertyErrorf (property format : String) (args : List String)
  | OtherModuleErrorf (module : Module) (format : String) (args : List String)
  | Variable (callers : List Frame) (name value : String)
  | Rule (callers : List Frame) (name : String) (params : E.RuleParams)
      (argNames : List String)
  | Build (callers : List Frame) (params : E.BuildParams)
  | AddNinjaFileDeps (deps : List String)

/-- The op is a call of the `Errorf` family. -/
def Op.isErrorf {E : Externals} : Op E → Bool
  | .Errorf _ _ _ => true
  | .ModuleErrorf _ _ => true
  | .PropertyErrorf _ _ _ => true
  | .OtherModuleErrorf _ _ _ => true
  | _ => false

/-- Performs one call on the context (the handle `Rule` returns is dropped). -/
def Op.call {E : Externals} (m : moduleContext E) : Op E → Call E Unit
  | .Errorf pos format args => m.Errorf pos format args
  | .ModuleErrorf format args => m.ModuleErrorf format args
  | .PropertyErrorf property format args => m.PropertyErrorf property format args
  | .OtherModuleErrorf module format args => m.OtherModuleErrorf module format args
  | .Variable callers name value => m.Variable callers name value
  | .Rule callers name params argNames =>
    let c := m.Rule callers name params argNames
    { ctx := c.ctx, outcome := c.outcome.map (fun _ => ()) }
  | .Build callers params => m.Build callers params
  | .AddNinjaFileDeps deps => m.AddNinjaFileDeps deps

/-- The context after a sequence of calls. A call that panics leaves the
context as it was at the panic, and the calls after it (made once the panic
has been recovered) go on from there. -/
def run {E : Externals} (m : moduleContext E) : List (Op E) → moduleContext E
  | [] => m
  | op :: ops => run (op.call m).ctx ops

/-- Every call of the sequence returns. -/
def allReturn {E : Externals} (m : moduleContext E) : List (Op E) → Bool
  | [] => true
  | op :: ops => (op.call m).returned && allReturn (op.call m).ctx ops

/-! ## The scope, modelled from the specification

The scope and its operations are declared outside `module_ctx.go`. The model
below follows the specification's description of them, and is used where a
property is about what the scope itself does. -/

/-- Modelled from the spec: the parameters of a rule are outside
`module_ctx.go`; a rule is a parameterized command template. -/
structure RuleParams where
  Command : String
deriving DecidableEq, Repr

/-- Modelled from the spec: the variable object a declaration produces,
outside `module_ctx.go`: a name and a value, owned by a package. -/
structure localVariable where
  pkg : String
  name : String
  value : String
deriving DecidableEq, Repr

/-- Modelled from the spec: the rule object a declaration produces, outside
`module_ctx.go`: a named, parameterized command template plus the ordered list
of parameter names it expects, owned by a package. -/
structure localRule where
  pkg : String
  name : String
  params : RuleParams
  argNames : List String
deriving DecidableEq, Repr

/-- Modelled from the spec: the parameters of a build edge are outside
`module_ctx.go`: inputs, outputs, rule reference and local variable
bindings. -/
structure BuildParams where
  Rule : localRule
  Outputs : List String
  Inputs : List String
  Args : List (String × String)
deriving DecidableEq, Repr

/-- Modelled from the spec: the recorded build edge is outside
`module_ctx.go`: the materialized result of one `Build` call. -/
structure buildDef where
  Rule : localRule
  Outputs : List String
  Inputs : List String
  Args : List (String × String)
deriving DecidableEq, Repr

/-- Modelled from the spec: what a scope maps a declared name to is outside
`module_ctx.go`: either a variable or a rule. -/
inductive ScopeObject where
  | var (v : localVariable)
  | rule (r : localRule)
deriving DecidableEq, Repr

/-- Modelled from the spec: one entry of a scope, outside `module_ctx.go`: a
declared name, the package that owns the declaration, and the object. -/
structure Declaration where
  owner : String
  name : String
  object : ScopeObject
deriving DecidableEq, Repr

/-- Modelled from the spec: the type `localScope` is outside `module_ctx.go`.
A scope maps a declared name, per owning package, to a variable or a rule;
`pkg` is the package that declarations are currently attributed to (what
reparenting rebinds), `decls` the declarations in the order they were made. -/
structure localScope where
  pkg : String
  decls : List Declaration
deriving DecidableEq, Repr

/-- Modelled from the spec: the errors of the scope operations are outside
`module_ctx.go`. A declaration fails because it is malformed or because it is a
duplicate definition. -/
inductive ScopeError where
  | malformed (name : String)
  | duplicate (pkg name : String)
deriving DecidableEq, Repr

/-- Modelled from the spec: which names, values and build parameters are well
formed is decided by the scope engine outside `module_ctx.go`, which the
specification treats as opaque; it is a parameter of the model. -/
structure Wellformedness where
  variableOk : String → String → Bool
  ruleOk : String → RuleParams → List String → Bool
  parseBuild : localScope → BuildParams → Option buildDef

namespace localScope

/-- The package `pkg` has declared `name` in the scope. -/
def declared (s : localScope) (pkg name : String) : Bool :=
  s.decls.any (fun d => decide (d.owner = pkg) && decide (d.name = name))

/-- Modelled from the spec: `ReparentToCallerPackage` is outside
`module_ctx.go`. Given a call-stack skip depth it determines the calling
package and rebinds subsequent declarations to be owned by that package:
`skip` frames are passed over, counting from the frame of the operation
itself, and the next frame is the caller whose package is taken. A stack with
no such frame leaves the scope as it is. -/
def ReparentToCallerPackage (s : localScope) (skip : Nat) (stack : List Frame) :
    localScope :=
  match stack[skip]? with
  | some caller => { s with pkg := caller.pkgPath }
  | none => s

/-- Modelled from the spec: `AddLocalVariable` is outside `module_ctx.go`. It
declares a variable owned by the scope's current package; a malformed
declaration and a redeclaration of a name under the same owning package are
errors. -/
def AddLocalVariable (W : Wellformedness) (s : localScope) (name value : String) :
    localScope × Except ScopeError localVariable :=
  if W.variableOk name value = false then (s, .error (.malformed name))
  else if s.declared s.pkg name then (s, .error (.duplicate s.pkg name))
  else
    let v : localVariable := { pkg := s.pkg, name := name, value := value }
    ({ s with decls := s.decls ++ [{ owner := s.pkg, name := name, object := .var v }] }, .ok v)

/-- Modelled from the spec: `AddLocalRule` is outside `module_ctx.go`. It
declares a rule owned by the scope's current package, with the same failures
as a variable declaration, and returns the rule as a handle. -/
def AddLocalRule (W : Wellformedness) (s : localScope) (name : String)
    (params : RuleParams) (argNames : List String) :
    localScope × Except ScopeError localRule :=
  if W.ruleOk name params argNames = false then (s, .error (.malformed name))
  else if s.declared s.pkg name then (s, .error (.duplicate s.pkg name))
  else
    let r : localRule := { pkg := s.pkg, name := name, params := params, argNames := argNames }
    ({ s with decls := s.decls ++ [{ owner := s.pkg, name := name, object := .rule r }] }, .ok r)

/-- Modelled from the spec: `parseBuildParams` is outside `module_ctx.go`. It
parses the parameters of one build edge against the scope, which it leaves as
it is. -/
def parseBuildParams (W : Wellformedness) (s : localScope) (params : BuildParams) :
    localScope × Except ScopeError buildDef :=
  match W.parseBuild s params with
  | some d => (s, .ok d)
  | none => (s, .error (.malformed params.Rule.name))

end localScope

/-- The context's externals, with the scope modelled from the specification.
The configuration value is opaque and is taken to be a string. -/
def specExternals (W : Wellformedness) : Externals where
  Config := String
  Scope := localScope
  Variable := localVariable
  Rule := localRule
  BuildDef := buildDef
  RuleParams := RuleParams
  BuildParams := BuildParams
  ScopeErr := ScopeError
  ReparentToCallerPackage := localScope.ReparentToCallerPackage
  AddLocalVariable := localScope.AddLocalVariable W
  AddLocalRule := localScope.AddLocalRule W
  parseBuildParams := localScope.parseBuildParams W

/-- How a call reaches the context: the module's logic calls the method
itself, or it calls a helper function and the helper (one extra call frame)
calls the method. -/
inductive CallPath where
  | direct (logic : Frame)
  | viaHelper (helper logic : Frame)
deriving DecidableEq, Repr

namespace CallPath

/-- The call stack at the call of the context's method, innermost frame
first; `outer` are the frames from which the module's logic was entered. -/
def callers (outer : List Frame) : CallPath → List Frame
  | .direct logic => logic :: outer
  | .viaHelper helper logic => helper :: logic :: outer

/-- The calling package: the package whose code issues the call of the
context's method (for a call through a helper, the helper's package). -/
def callingPackage : CallPath → String
  | .direct logic => logic.pkgPath
  | .viaHelper helper _ => helper.pkgPath

end CallPath

/-- What a declaration made through the context declares: a variable with its
value (a call of `Variable`), or a rule with its parameters and argument names
(a call of `Rule`). -/
inductive DeclKind where
  | Variable (value : String)
  | Rule (params : RuleParams) (argNames : List String)
deriving DecidableEq, Repr

/-- A declaration call: the path along which it reaches the context, the frames
outside the module's logic, the declared name, and what is declared. -/
structure DeclCall where
  path : CallPath
  outer : List Frame
  name : String
  kind : DeclKind
deriving DecidableEq, Repr

namespace DeclCall

/-- The call of the context that makes the declaration. -/
def op (W : Wellformedness) (d : DeclCall) : Op (specExternals W) :=
  match d.kind with
  | .Variable value => .Variable (d.path.callers d.outer) d.name value
  | .Rule params argNames => .Rule (d.path.callers d.outer) d.name params argNames

/-- The scope engine accepts the declaration's name and parameters. -/
def wellFormed (W : Wellformedness) (d : DeclCall) : Bool :=
  match d.kind with
  | .Variable value => W.variableOk d.name value
  | .Rule params argNames => W.ruleOk d.name params argNames

/-- The calling package and the name of the declaration. -/
def key (d : DeclCall) : String × String :=
  (d.path.callingPackage, d.name)

/-- The scope entry that attributes the declaration to its calling package. -/
def entry (d : DeclCall) : Declaration :=
  match d.kind with
  | .Variable value =>
    { owner := d.path.callingPackage, name := d.name,
      object := .var { pkg := d.path.callingPackage, name := d.name, value := value } }
  | .Rule params argNames =>
    { owner := d.path.callingPackage, name := d.name,
      object := .rule { pkg := d.path.callingPackage, name := d.name, params := params,
                        argNames := argNames } }

end DeclCall

/-! ## The objects a sequence of declarations produces -/

/-- An object that a declaration hands to the Build Action Set. -/
inductive Produced (E : Externals) where
  | variable_ (v : E.Variable)
  | rule (r : E.Rule)
  | buildDef (d : E.BuildDef)

/-- The op is a call of `Variable`, `Rule` or `Build`. -/
def Op.isDeclaration {E : Externals} : Op E → Bool
  | .Variable _ _ _ => true
  | .Rule _ _ _ _ => true
  | .Build _ _ => true
  | _ => false

/-- What the scope does for a declaration, seen without the context: the
scope is reparented to the caller and the scope operation runs; the result is
the scope left behind and the object produced, if the operation succeeded. -/
def Op.declare {E : Externals} (sc : E.Scope) : Op E → E.Scope × Option (Produced E)
  | .Variable callers name value =>
    let r := E.AddLocalVariable
      (E.ReparentToCallerPackage sc 2 (moduleContext.stackInside "(*moduleContext).Variable" callers))
      name value
    (r.1, match r.2 with
          | .ok v => some (.variable_ v)
          | .error _ => none)
  | .Rule callers name params argNames =>
    let r := E.AddLocalRule
      (E.ReparentToCallerPackage sc 2 (moduleContext.stackInside "(*moduleContext).Rule" callers))
      name params argNames
    (r.1, match r.2 with
          | .ok v => some (.rule v)
          | .error _ => none)
  | .Build callers params =>
    let r := E.parseBuildParams
      (E.ReparentToCallerPackage sc 2 (moduleContext.stackInside "(*moduleContext).Build" callers))
      params
    (r.1, match r.2 with
          | .ok v => some (.buildDef v)
          | .error _ => none)
  | _ => (sc, none)

/-- The objects the scope produces for a sequence of declarations, in call
order. -/
def produced {E : Externals} (sc : E.Scope) : List (Op E) → List (Produced E)
  | [] => []
  | op :: ops =>
    match (op.declare sc).2 with
    | some p => p :: produced (op.declare sc).1 ops
    | none => produced (op.declare sc).1 ops

/-- The variables among produced objects, in order. -/
def variablesOf {E : Externals} : List (Produced E) → List E.Variable
  | [] => []
  | .variable_ v :: ps => v :: variablesOf ps
  | _ :: ps => variablesOf ps

/-- The rules among produced objects, in order. -/
def rulesOf {E : Externals} : List (Produced E) → List E.Rule
  | [] => []
  | .rule r :: ps => r :: rulesOf ps
  | _ :: ps => rulesOf ps

/-- The build edges among produced objects, in order. -/
def buildDefsOf {E : Externals} : List (Produced E) → List E.BuildDef
  | [] => []
  | .buildDef d :: ps => d :: buildDefsOf ps
  | _ :: ps => buildDefsOf ps

/-- The number of `Variable` calls of a sequence. -/
def countVariable {E : Externals} : List (Op E) → Nat
  | [] => 0
  | .Variable _ _ _ :: ops => countVariable ops + 1
  | _ :: ops => countVariable ops

/-- The number of `Rule` calls of a sequence. -/
def countRule {E : Externals} : List (Op E) → Nat
  | [] => 0
  | .Rule _ _ _ _ :: ops => countRule ops + 1
  | _ :: ops => countRule ops

/-- The number of `Build` calls of a sequence. -/
def countBuild {E : Externals} : List (Op E) → Nat
  | [] => 0
  | .Build _ _ :: ops => countBuild ops + 1
  | _ :: ops => countBuild ops

/-! ## Concrete inputs -/

namespace Example

/-- A source position in `Blueprints`, at the given line. -/
def posAt (line : Int) : Position :=
  { Filename := "Blueprints", Offset := 0, Line := line, Column := 1 }

/-- The info of module `N`: declared at line 10, with `srcs` set at line 12. -/
def infoN : moduleInfo :=
  { properties := { Name := "N" }, relBlueprintsFile := "dir/Blueprints", pos := posAt 10,
    propertyPos := fun p => if p = "srcs" then some (posAt 12) else none }

/-- The info of module `M`, declared at line 3 with no property set. -/
def infoM : moduleInfo :=
  { properties := { Name := "M" }, relBlueprintsFile := "dir/Blueprints", pos := posAt 3,
    propertyPos := fun _ => none }

/-- A graph with the modules 0 (`N`) and 1 (`M`) registered, module 7 not
registered, and dependency edges with a diamond and a cycle. -/
def graph : Context :=
  { moduleInfo := fun x => if x = 0 then some infoN else if x = 1 then some infoM else none,
    edges := [(0, 1), (0, 2), (1, 3), (2, 3), (3, 4), (4, 1), (5, 0)] }

/-- A scope engine that accepts every name but the empty one. -/
def W : Wellformedness :=
  { variableOk := fun name _ => decide (name ≠ ""),
    ruleOk := fun name _ _ => decide (name ≠ ""),
    parseBuild := fun _ p =>
      if p.Outputs = [] then none
      else some { Rule := p.Rule, Outputs := p.Outputs, Inputs := p.Inputs, Args := p.Args } }

/-- The fresh context of module `N` (module 0) in `graph`. -/
def ctxN : moduleContext (specExternals W) :=
  newModuleContext graph "config" 0 { pkg := "blueprint", decls := [] } infoN

/-- The fresh context of module `M` (module 1) in `graph`. -/
def ctxM : moduleContext (specExternals W) :=
  newModuleContext graph "config" 1 { pkg := "blueprint", decls := [] } infoM

/-- The frame of the logic of a module of package `pkg`. -/
def logicOf (pkg : String) : Frame :=
  { pkgPath := pkg, funcName := "(*module).GenerateBuildActions" }

/-- The frame of a helper function of package `pkg`. -/
def helperOf (pkg : String) : Frame :=
  { pkgPath := pkg, funcName := "helper" }

/-- The frames from which the graph enters a module's logic. -/
def driver : List Frame :=
  [{ pkgPath := "blueprint", funcName := "(*Context).generateModuleBuildActions" },
   { pkgPath := "main", funcName := "main" }]

/-- The rule `cc`, as its declaration by package `cc` produces it. -/
def ruleCC : localRule :=
  { pkg := "cc", name := "cc", params := { Command := "gcc $cflags -c $in -o $out" },
    argNames := ["cflags"] }

/-- Module `M` declares the variable `cflags`, the rule `cc` and one build
edge from `in.c` to `out.o`. -/
def scenarioM : List (Op (specExternals W)) :=
  [.Variable (logicOf "cc" :: driver) "cflags" "-O2",
   .Rule (logicOf "cc" :: driver) "cc" { Command := "gcc $cflags -c $in -o $out" } ["cflags"],
   .Build (logicOf "cc" :: driver)
     { Rule := ruleCC, Outputs := ["out.o"], Inputs := ["in.c"], Args := [("cflags", "-O2")] }]

/-- Package `cc` declares the variable `link` from its module logic, and
package `java` declares a rule of the same name through a helper function. -/
def twoPackages : List DeclCall :=
  [{ path := .direct (logicOf "cc"), outer := driver, name := "link",
     kind := .Variable "ld" },
   { path := .viaHelper (helperOf "java") (logicOf "java"), outer := driver, name := "link",
     kind := .Rule { Command := "jar $in" } [] }]

/-- Package `cc` declares the variable `link` again, this time through its
helper function. -/
def again : DeclCall :=
  { path := .viaHelper (helperOf "cc") (logicOf "cc"), outer := driver, name := "link",
    kind := .Variable "gold" }

end Example

/-! ## Error accumulation -/

section ErrorAccumulation

variable {E : Externals}

theorem errs_prefix_call (m : moduleContext E) (op : Op E) :
    ∃ extra, (op.call m).ctx.errs = m.errs ++ extra := by
  cases op with
  | Errorf pos format args => exact ⟨_, rfl⟩
  | ModuleErrorf format args => exact ⟨_, rfl⟩
  | PropertyErrorf property format args =>
    simp only [Op.call, moduleContext.PropertyErrorf]
    cases m.info.propertyPos property with
    | none => exact ⟨[], by simp⟩
    | some pos => exact ⟨_, rfl⟩
  | OtherModuleErrorf module format args =>
    simp only [Op.call, moduleContext.OtherModuleErrorf]
    cases m.context.moduleInfo module with
    | none => exact ⟨[], by simp⟩
    | some info => exact ⟨_, rfl⟩
  | Variable callers name value =>
    refine ⟨[], ?_⟩
    simp only [Op.call, moduleContext.Variable]
    split <;> simp
  | Rule callers name params argNames =>
    refine ⟨[], ?_⟩
    simp only [Op.call, moduleContext.Rule]
    split <;> simp
  | Build callers params =>
    refine ⟨[], ?_⟩
    simp only [Op.call, moduleContext.Build]
    split <;> simp
  | AddNinjaFileDeps deps => exact ⟨[], by simp [Op.call, moduleContext.AddNinjaFileDeps]⟩

theorem errs_prefix_run (ops : List (Op E)) (m : moduleContext E) :
    ∃ extra, (run m ops).errs = m.errs ++ extra := by
  induction ops generalizing m with
  | nil => exact ⟨[], by simp [run]⟩
  | cons op ops ih =>
    obtain ⟨e1, h1⟩ := errs_prefix_call m op
    obtain ⟨e2, h2⟩ := ih (op.call m).ctx
    exact ⟨e1 ++ e2, by simp [run, h2, h1]⟩

theorem run_append (pre post : List (Op E)) (m : moduleContext E) :
    run m (pre ++ post) = run (run m pre) post := by
  induction pre generalizing m with
  | nil => rfl
  | cons op pre ih => simp [run, ih]

theorem errs_extended_of_returned (m : moduleContext E) (op : Op E)
    (hop : op.isErrorf = true) (hret : (op.call m).returned = true) :
    ∃ e, (op.call m).ctx.errs = m.errs ++ [e] := by
  cases op with
  | Errorf pos format args => exact ⟨_, rfl⟩
  | ModuleErrorf format args => exact ⟨_, rfl⟩
  | PropertyErrorf property format args =>
    simp only [Op.call, moduleContext.PropertyErrorf] at hret ⊢
    cases h : m.info.propertyPos property with
    | none => simp [h, Call.returned] at hret
    | some pos => exact ⟨_, rfl⟩
  | OtherModuleErrorf module format args =>
    simp only [Op.call, moduleContext.OtherModuleErrorf] at hret ⊢
    cases h : m.context.moduleInfo module with
    | none => simp [h, Call.returned] at hret
    | some info => exact ⟨_, rfl⟩
  | Variable callers name value => simp [Op.isErrorf] at hop
  | Rule callers name params argNames => simp [Op.isErrorf] at hop
  | Build callers params => simp [Op.isErrorf] at hop
  | AddNinjaFileDeps deps => simp [Op.isErrorf] at hop

theorem Failed_eq_true_iff (m : moduleContext E) : m.Failed = true ↔ m.errs ≠ [] := by
  simp [moduleContext.Failed, List.length_pos]

/-- A call that is not a returning call of the `Errorf` family leaves the
accumulated errors as they were. -/
theorem errs_unchanged_call (m : moduleContext E) (op : Op E)
    (h : op.isErrorf = false ∨ (op.call m).returned = false) :
    (op.call m).ctx.errs = m.errs := by
  cases op with
  | Errorf pos format args =>
    rcases h with h | h
    · simp [Op.isErrorf] at h
    · simp [Op.call, moduleContext.Errorf, Call.returned] at h
  | ModuleErrorf format args =>
    rcases h with h | h
    · simp [Op.isErrorf] at h
    · simp [Op.call, moduleContext.ModuleErrorf, Call.returned] at h
  | PropertyErrorf property format args =>
    simp only [Op.call, moduleContext.PropertyErrorf] at h ⊢
    cases hp : m.info.propertyPos property with
    | none => rfl
    | some pos => simp [hp, Op.isErrorf, Call.returned] at h
  | OtherModuleErrorf module format args =>
    simp only [Op.call, moduleContext.OtherModuleErrorf] at h ⊢
    cases hp : m.context.moduleInfo module with
    | none => rfl
    | some info => simp [hp, Op.isErrorf, Call.returned] at h
  | Variable callers name value =>
    simp only [Op.call, moduleContext.Variable]
    split <;> rfl
  | Rule callers name params argNames =>
    simp only [Op.call, moduleContext.Rule]
    split <;> rfl
  | Build callers params =>
    simp only [Op.call, moduleContext.Build]
    split <;> rfl
  | AddNinjaFileDeps deps => rfl

theorem Failed_mono_run (ops : List (Op E)) (m : moduleContext E) (h : m.Failed = true) :
    (run m ops).Failed = true := by
  rw [Failed_eq_true_iff] at h ⊢
  obtain ⟨extra, hx⟩ := errs_prefix_run ops m
  rw [hx]
  intro hnil
  exact h (List.append_eq_nil.1 hnil).1

theorem Failed_after_returned (m : moduleContext E) (pre post : List (Op E)) (op : Op E)
    (hop : op.isErrorf = true) (hret : (op.call (run m pre)).returned = true) :
    (run m (pre ++ op :: post)).Failed = true := by
  rw [run_append]
  show (run (op.call (run m pre)).ctx post).Failed = true
  apply Failed_mono_run
  rw [Failed_eq_true_iff]
  obtain ⟨e, he⟩ := errs_extended_of_returned (run m pre) op hop hret
  rw [he]
  simp

/-- When `Failed()` is true after a sequence of calls, it was true before the
sequence or one of the calls was a returning call of the `Errorf` family. -/
theorem Failed_run_cases (ops : List (Op E)) (m : moduleContext E)
    (h : (run m ops).Failed = true) :
    m.Failed = true ∨
    ∃ pre op post, ops = pre ++ op :: post ∧ op.isErrorf = true ∧
      (op.call (run m pre)).returned = true := by
  induction ops generalizing m with
  | nil => exact Or.inl h
  | cons op ops ih =>
    rcases ih (op.call m).ctx h with h1 | ⟨pre, op2, post, hsplit, hop, hret⟩
    · by_cases hrec : op.isErrorf = true ∧ (op.call m).returned = true
      · exact Or.inr ⟨[], op, ops, rfl, hrec.1, hrec.2⟩
      · left
        have hsame : (op.call m).ctx.errs = m.errs := by
          apply errs_unchanged_call
          by_cases h2 : op.isErrorf = true
          · right
            have h3 : ¬ (op.call m).returned = true := fun h3 => hrec ⟨h2, h3⟩
            simpa using h3
          · left
            simpa using h2
        rw [Failed_eq_true_iff] at h1 ⊢
        rwa [hsame] at h1
    · exact Or.inr ⟨op :: pre, op2, post, by rw [hsplit]; rfl, hop, hret⟩

/-- C1: `Failed()` is true exactly when the accumulated error list is not
empty. It is false on a freshly constructed context. After any sequence of
calls (panics among them or not) that contains an `Errorf` call, a
`ModuleErrorf` call, a `PropertyErrorf` call that returned or an
`OtherModuleErrorf` call that returned, it is true. And it is true after a
sequence of calls only if it was true before or the sequence contains a call
of the `Errorf` family that returned, so that without such a call a fresh
context keeps `Failed()` false. -/
theorem Failed_iff_error_accumulated (m : moduleContext E) :
    (m.Failed = true ↔ m.errs ≠ []) ∧
    (∀ (context : Context) (config : E.Config) (module : Module) (scope : E.Scope)
        (info : moduleInfo),
        (newModuleContext context config module scope info : moduleContext E).Failed = false) ∧
    (∀ (pre post : List (Op E)) (pos : Position) (format : String) (args : List String),
        ((run m pre).Errorf pos format args).returned = true ∧
        ((run m pre).Errorf pos format args).ctx.Failed = true ∧
        (run m (pre ++ Op.Errorf pos format args :: post)).Failed = true) ∧
    (∀ (pre post : List (Op E)) (format : String) (args : List String),
        ((run m pre).ModuleErrorf format args).returned = true ∧
        ((run m pre).ModuleErrorf format args).ctx.Failed = true ∧
        (run m (pre ++ Op.ModuleErrorf format args :: post)).Failed = true) ∧
    (∀ (pre post : List (Op E)) (property format : String) (args : List String),
        ((run m pre).PropertyErrorf property format args).returned = true →
        ((run m pre).PropertyErrorf property format args).ctx.Failed = true ∧
        (run m (pre ++ Op.PropertyErrorf property format args :: post)).Failed = true) ∧
    (∀ (pre post : List (Op E)) (module : Module) (format : String) (args : List String),
        ((run m pre).OtherModuleErrorf module format args).returned = true →
        ((run m pre).OtherModuleErrorf module format args).ctx.Failed = true ∧
        (run m (pre ++ Op.OtherModuleErrorf module format args :: post)).Failed = true) ∧
    (∀ ops : List (Op E), (run m ops).Failed = true ↔
        m.Failed = true ∨
        ∃ pre op post, ops = pre ++ op :: post ∧ op.isErrorf = true ∧
          (op.call (run m pre)).returned = true) := by
  have single : ∀ (m1 : moduleContext E) (op : Op E), op.isErrorf = true →
      (op.call m1).returned = true → (op.call m1).ctx.Failed = true := by
    intro m1 op hop hret
    have h := Failed_after_returned m1 [] [] op hop hret
    simpa [run] using h
  refine ⟨Failed_eq_true_iff m, ?_, ?_, ?_, ?_, ?_, ?_⟩
  · intro context config module scope info
    rfl
  · intro pre post pos format args
    exact ⟨rfl, single (run m pre) (Op.Errorf pos format args) rfl rfl,
      Failed_after_returned m pre post (Op.Errorf pos format args) rfl rfl⟩
  · intro pre post format args
    exact ⟨rfl, single (run m pre) (Op.ModuleErrorf format args) rfl rfl,
      Failed_after_returned m pre post (Op.ModuleErrorf format args) rfl rfl⟩
  · intro pre post property format args hret
    exact ⟨single (run m pre) (Op.PropertyErrorf property format args) rfl hret,
      Failed_after_returned m pre post (Op.PropertyErrorf property format args) rfl hret⟩
  · intro pre post module format args hret
    exact ⟨single (run m pre) (Op.OtherModuleErrorf module format args) rfl hret,
      Failed_after_returned m pre post (Op.OtherModuleErrorf module format args) rfl hret⟩
  · intro ops
    constructor
    · exact Failed_run_cases ops m
    · rintro (h | ⟨pre, op, post, hsplit, hop, hret⟩)
      · exact Failed_mono_run ops m h
      · rw [hsplit]
        exact Failed_after_returned m pre post op hop hret

/-- C1 at concrete inputs, on the fresh context of module `N`: `Failed()` is
false at first; it is true after a `Variable` call that panics followed by an
`Errorf` call and a declaration; it is true after a panicking `Variable` call,
`PropertyErrorf` on the set property `srcs` and a declaration; and it is true
after `ModuleErrorf` alone. -/
theorem Failed_iff_error_accumulated_witness :
    Example.ctxN.Failed = false ∧
    (run Example.ctxN
      ([Op.Variable (Example.logicOf "cc" :: Example.driver) "" "x"] ++
        Op.Errorf (Example.posAt 5) "bad" [] ::
        [Op.Variable (Example.logicOf "cc" :: Example.driver) "cflags" "-O2"])).Failed = true ∧
    (run Example.ctxN
      ([Op.Variable (Example.logicOf "cc" :: Example.driver) "" "x"] ++
        Op.PropertyErrorf "srcs" "empty list" [] ::
        [Op.Variable (Example.logicOf "cc" :: Example.driver) "cflags" "-O2"])).Failed = true ∧
    (run Example.ctxN ([] ++ Op.ModuleErrorf "bad module" [] :: [])).Failed = true :=
  ⟨by decide,
   ((Failed_iff_error_accumulated Example.ctxN).2.2.1 _ _ _ _ _).2.2,
   ((Failed_iff_error_accumulated Example.ctxN).2.2.2.2.1 _ _ _ _ _ (by decide)).2,
   ((Failed_iff_error_accumulated Example.ctxN).2.2.2.1 _ _ _ _).2.2⟩

/-- C2: `PropertyErrorf` panics exactly when the property is absent from the
module's property-position map, and then leaves the accumulated errors as
they were; on a present property it returns and appends one error, at the
position stored for the property. -/
theorem PropertyErrorf_faults_iff_absent (m : moduleContext E) (property format : String)
    (args : List String) :
    ((m.PropertyErrorf property format args).panicked = true ↔
      m.info.propertyPos property = none) ∧
    (m.info.propertyPos property = none →
      (m.PropertyErrorf property format args).ctx.errs = m.errs) ∧
    (∀ pos, m.info.propertyPos property = some pos →
      (m.PropertyErrorf property format args).returned = true ∧
      (m.PropertyErrorf property format args).ctx.errs =
        m.errs ++ [{ Err := { format := format, args := args }, Pos := pos }]) := by
  unfold moduleContext.PropertyErrorf
  cases h : m.info.propertyPos property with
  | none => simp [Call.panicked]
  | some pos => simp [Call.panicked, Call.returned]

/-- C2 at concrete inputs: on module `N`, the unset property `cflags` panics
and records nothing; the set property `srcs` records an error at line 12. -/
theorem PropertyErrorf_faults_iff_absent_witness :
    (Example.ctxN.PropertyErrorf "cflags" "bad" []).ctx.errs = [] ∧
    (Example.ctxN.PropertyErrorf "srcs" "empty list" []).ctx.errs =
      [{ Err := { format := "empty list", args := [] }, Pos := Example.posAt 12 }] :=
  ⟨(PropertyErrorf_faults_iff_absent Example.ctxN "cflags" "bad" []).2.1 (by rfl),
   ((PropertyErrorf_faults_iff_absent Example.ctxN "srcs" "empty list" []).2.2
      (Example.posAt 12) (by rfl)).2⟩

/-- C3: every call of the `Errorf` family that returns puts exactly one error
at the end of the accumulated errors and keeps the earlier ones as they were:
`Errorf` at its position argument, `ModuleErrorf` at the module's own
declaration position, `OtherModuleErrorf` at the declaration position
registered for the other module, `PropertyErrorf` at the position stored for
the property. `Errorf` and `ModuleErrorf` always return. -/
theorem Errorf_family_appends_one (m : moduleContext E) (format : String)
    (args : List String) :
    (∀ pos, (m.Errorf pos format args).returned = true ∧
      (m.Errorf pos format args).ctx.errs =
        m.errs ++ [{ Err := { format := format, args := args }, Pos := pos }]) ∧
    ((m.ModuleErrorf format args).returned = true ∧
      (m.ModuleErrorf format args).ctx.errs =
        m.errs ++ [{ Err := { format := format, args := args }, Pos := m.info.pos }]) ∧
    (∀ module, (m.OtherModuleErrorf module format args).returned = true →
      ∃ info, m.context.moduleInfo module = some info ∧
        (m.OtherModuleErrorf module format args).ctx.errs =
          m.errs ++ [{ Err := { format := format, args := args }, Pos := info.pos }]) ∧
    (∀ property, (m.PropertyErrorf property format args).returned = true →
      ∃ pos, m.info.propertyPos property = some pos ∧
        (m.PropertyErrorf property format args).ctx.errs =
          m.errs ++ [{ Err := { format := format, args := args }, Pos := pos }]) := by
  refine ⟨fun pos => ⟨rfl, rfl⟩, ⟨rfl, rfl⟩, ?_, ?_⟩
  · intro module hret
    unfold moduleContext.OtherModuleErrorf at hret ⊢
    cases h : m.context.moduleInfo module with
    | none => simp [h, Call.returned] at hret
    | some info => exact ⟨info, rfl, rfl⟩
  · intro property hret
    unfold moduleContext.PropertyErrorf at hret ⊢
    cases h : m.info.propertyPos property with
    | none => simp [h, Call.returned] at hret
    | some pos => exact ⟨pos, rfl, rfl⟩

/-- C3 at a concrete input: in module `N`, `OtherModuleErrorf` on the
registered module 1 (`M`, declared at line 3) returns, and the error it
appends is at line 3. -/
theorem Errorf_family_appends_one_witness :
    ∃ info, Example.ctxN.context.moduleInfo 1 = some info ∧
      (Example.ctxN.OtherModuleErrorf 1 "bad dependency" []).ctx.errs =
        Example.ctxN.errs ++
          [{ Err := { format := "bad dependency", args := [] }, Pos := info.pos }] :=
  (Errorf_family_appends_one Example.ctxN "bad dependency" []).2.2.1 1 (by decide)

/-- C6: a call of the `Errorf` family, whether it returns or panics, leaves
the Build Action Set (variables, rules, build edges) and the list of extra
file dependencies as they were. -/
theorem Errorf_family_keeps_declarations (m : moduleContext E) (format : String)
    (args : List String) :
    (∀ pos, (m.Errorf pos format args).ctx.actionDefs = m.actionDefs ∧
      (m.Errorf pos format args).ctx.ninjaFileDeps = m.ninjaFileDeps) ∧
    ((m.ModuleErrorf format args).ctx.actionDefs = m.actionDefs ∧
      (m.ModuleErrorf format args).ctx.ninjaFileDeps = m.ninjaFileDeps) ∧
    (∀ property, (m.PropertyErrorf property format args).ctx.actionDefs = m.actionDefs ∧
      (m.PropertyErrorf property format args).ctx.ninjaFileDeps = m.ninjaFileDeps) ∧
    (∀ module, (m.OtherModuleErrorf module format args).ctx.actionDefs = m.actionDefs ∧
      (m.OtherModuleErrorf module format args).ctx.ninjaFileDeps = m.ninjaFileDeps) := by
  refine ⟨fun pos => ⟨rfl, rfl⟩, ⟨rfl, rfl⟩, ?_, ?_⟩
  · intro property
    unfold moduleContext.PropertyErrorf
    cases m.info.propertyPos property <;> exact ⟨rfl, rfl⟩
  · intro module
    unfold moduleContext.OtherModuleErrorf
    cases m.context.moduleInfo module <;> exact ⟨rfl, rfl⟩

/-- C7: for a module that is not in the graph's module-info registry,
`OtherModuleName` panics instead of returning a name and `OtherModuleErrorf`
panics without appending an error; for a registered module `OtherModuleName`
returns the name stored in the module's registered info. -/
theorem OtherModule_unregistered_faults (m : moduleContext E) (module : Module) :
    (m.context.moduleInfo module = none →
      (m.OtherModuleName module).panicked = true ∧
      (∀ format args, (m.OtherModuleErrorf module format args).panicked = true ∧
        (m.OtherModuleErrorf module format args).ctx.errs = m.errs)) ∧
    (∀ info, m.context.moduleInfo module = some info →
      (m.OtherModuleName module).outcome = .ok info.properties.Name) := by
  unfold moduleContext.OtherModuleName moduleContext.OtherModuleErrorf
  cases h : m.context.moduleInfo module with
  | none => simp [Call.panicked]
  | some info => simp

/-- C7 at concrete inputs: module 7 is not registered, module 1 is registered
under the name `M`. -/
theorem OtherModule_unregistered_faults_witness :
    ((Example.ctxN.OtherModuleName 7).panicked = true ∧
      (∀ format args, (Example.ctxN.OtherModuleErrorf 7 format args).panicked = true ∧
        (Example.ctxN.OtherModuleErrorf 7 format args).ctx.errs = Example.ctxN.errs)) ∧
    (Example.ctxN.OtherModuleName 1).outcome = .ok "M" :=
  ⟨(OtherModule_unregistered_faults Example.ctxN 7).1 (by rfl),
   (OtherModule_unregistered_faults Example.ctxN 1).2 Example.infoM (by rfl)⟩

end ErrorAccumulation

/-! ## Declarations -/

section Declarations

variable {E : Externals}

theorem variablesOf_cons (p : Produced E) (ps : List (Produced E)) :
    variablesOf (p :: ps) = variablesOf [p] ++ variablesOf ps := by
  cases p <;> simp [variablesOf]

theorem rulesOf_cons (p : Produced E) (ps : List (Produced E)) :
    rulesOf (p :: ps) = rulesOf [p] ++ rulesOf ps := by
  cases p <;> simp [rulesOf]

theorem buildDefsOf_cons (p : Produced E) (ps : List (Produced E)) :
    buildDefsOf (p :: ps) = buildDefsOf [p] ++ buildDefsOf ps := by
  cases p <;> simp [buildDefsOf]

theorem countVariable_cons (op : Op E) (ops : List (Op E)) :
    countVariable (op :: ops) = countVariable [op] + countVariable ops := by
  cases op <;> simp [countVariable, Nat.add_comm]

theorem countRule_cons (op : Op E) (ops : List (Op E)) :
    countRule (op :: ops) = countRule [op] + countRule ops := by
  cases op <;> simp [countRule, Nat.add_comm]

theorem countBuild_cons (op : Op E) (ops : List (Op E)) :
    countBuild (op :: ops) = countBuild [op] + countBuild ops := by
  cases op <;> simp [countBuild, Nat.add_comm]

/-- One returning declaration: the context's scope is the one the scope
operation left, and the object it produced is the one element added to the
Build Action Set, at the end of its own sequence. -/
theorem declaration_step (m : moduleContext E) (op : Op E)
    (hd : op.isDeclaration = true) (hr : (op.call m).returned = true) :
    ∃ p, op.declare m.scope = ((op.call m).ctx.scope, some p) ∧
      (op.call m).ctx.actionDefs.variables_ = m.actionDefs.variables_ ++ variablesOf [p] ∧
      (op.call m).ctx.actionDefs.rules = m.actionDefs.rules ++ rulesOf [p] ∧
      (op.call m).ctx.actionDefs.buildDefs = m.actionDefs.buildDefs ++ buildDefsOf [p] ∧
      (variablesOf [p]).length = countVariable [op] ∧
      (rulesOf [p]).length = countRule [op] ∧
      (buildDefsOf [p]).length = countBuild [op] ∧
      (op.call m).ctx.errs = m.errs := by
  cases op with
  | Errorf pos format args => simp [Op.isDeclaration] at hd
  | ModuleErrorf format args => simp [Op.isDeclaration] at hd
  | PropertyErrorf property format args => simp [Op.isDeclaration] at hd
  | OtherModuleErrorf module format args => simp [Op.isDeclaration] at hd
  | AddNinjaFileDeps deps => simp [Op.isDeclaration] at hd
  | Variable callers name value =>
    simp only [Op.call, moduleContext.Variable, Op.declare] at hr ⊢
    rcases h : E.AddLocalVariable (E.ReparentToCallerPackage m.scope 2
      (moduleContext.stackInside "(*moduleContext).Variable" callers)) name value with ⟨sc, _ | v⟩
    · simp [h, Call.returned] at hr
    · exact ⟨.variable_ v, by simp [variablesOf, rulesOf, buildDefsOf, countVariable,
        countRule, countBuild]⟩
  | Rule callers name params argNames =>
    simp only [Op.call, moduleContext.Rule, Op.declare] at hr ⊢
    rcases h : E.AddLocalRule (E.ReparentToCallerPackage m.scope 2
      (moduleContext.stackInside "(*moduleContext).Rule" callers)) name params argNames
      with ⟨sc, _ | v⟩
    · simp [h, Call.returned, Except.map] at hr
    · exact ⟨.rule v, by simp [variablesOf, rulesOf, buildDefsOf, countVariable,
        countRule, countBuild]⟩
  | Build callers params =>
    simp only [Op.call, moduleContext.Build, Op.declare] at hr ⊢
    rcases h : E.parseBuildParams (E.ReparentToCallerPackage m.scope 2
      (moduleContext.stackInside "(*moduleContext).Build" callers)) params with ⟨sc, _ | v⟩
    · simp [h, Call.returned] at hr
    · exact ⟨.buildDef v, by simp [variablesOf, rulesOf, buildDefsOf, countVariable,
        countRule, countBuild]⟩

/-- C4: for every sequence of `Variable`, `Rule` and `Build` calls that all
return, the variables, rules and build edges of the Build Action Set are those
it held before followed by exactly the objects the scope produced for the
`Variable`, `Rule` and `Build` calls respectively, in call order (so from an
empty set they are exactly the produced objects, one per call of the kind),
and the accumulated errors and `Failed()` are as before. -/
theorem declarations_recorded_in_order (m : moduleContext E) (ops : List (Op E))
    (hdecl : ∀ op ∈ ops, op.isDeclaration = true) (hret : allReturn m ops = true) :
    (run m ops).actionDefs.variables_ =
      m.actionDefs.variables_ ++ variablesOf (produced m.scope ops) ∧
    (run m ops).actionDefs.rules = m.actionDefs.rules ++ rulesOf (produced m.scope ops) ∧
    (run m ops).actionDefs.buildDefs =
      m.actionDefs.buildDefs ++ buildDefsOf (produced m.scope ops) ∧
    (variablesOf (produced m.scope ops)).length = countVariable ops ∧
    (rulesOf (produced m.scope ops)).length = countRule ops ∧
    (buildDefsOf (produced m.scope ops)).length = countBuild ops ∧
    (run m ops).errs = m.errs ∧
    (run m ops).Failed = m.Failed := by
  induction ops generalizing m with
  | nil => simp [run, produced, variablesOf, rulesOf, buildDefsOf, countVariable, countRule,
      countBuild]
  | cons op ops ih =>
    simp only [allReturn, Bool.and_eq_true] at hret
    obtain ⟨p, hp, hv, hrl, hb, hcv, hcr, hcb, he⟩ :=
      declaration_step m op (hdecl op (List.mem_cons_self _ _)) hret.1
    obtain ⟨iv, ir, ib, icv, icr, icb, ie, _⟩ :=
      ih (op.call m).ctx (fun o ho => hdecl o (List.mem_cons_of_mem _ ho)) hret.2
    have hprod : produced m.scope (op :: ops) = p :: produced (op.call m).ctx.scope ops := by
      simp [produced, hp]
    have herrs : (run m (op :: ops)).errs = m.errs := by
      simp only [run]
      rw [ie, he]
    refine ⟨?_, ?_, ?_, ?_, ?_, ?_, herrs, ?_⟩
    · rw [hprod, variablesOf_cons]
      simp only [run]
      rw [iv, hv, List.append_assoc]
    · rw [hprod, rulesOf_cons]
      simp only [run]
      rw [ir, hrl, List.append_assoc]
    · rw [hprod, buildDefsOf_cons]
      simp only [run]
      rw [ib, hb, List.append_assoc]
    · rw [hprod, variablesOf_cons, countVariable_cons, List.length_append, icv, hcv]
    · rw [hprod, rulesOf_cons, countRule_cons, List.length_append, icr, hcr]
    · rw [hprod, buildDefsOf_cons, countBuild_cons, List.length_append, icb, hcb]
    · simp only [moduleContext.Failed, herrs]

/-- C4 at a concrete input: module `M` declares the variable `cflags`, the
rule `cc` and one build edge from `in.c` to `out.o` on its fresh context; the
Build Action Set then holds exactly that variable, that rule and that edge,
and `Failed()` is false. -/
theorem declarations_recorded_in_order_witness :
    (run Example.ctxM Example.scenarioM).actionDefs.variables_ =
      [{ pkg := "cc", name := "cflags", value := "-O2" }] ∧
    (run Example.ctxM Example.scenarioM).actionDefs.rules = [Example.ruleCC] ∧
    (run Example.ctxM Example.scenarioM).actionDefs.buildDefs =
      [{ Rule := Example.ruleCC, Outputs := ["out.o"], Inputs := ["in.c"],
         Args := [("cflags", "-O2")] }] ∧
    (run Example.ctxM Example.scenarioM).Failed = false :=
  have h := declarations_recorded_in_order Example.ctxM Example.scenarioM
    (by decide) (by decide)
  ⟨h.1.trans (by rfl), h.2.1.trans (by rfl), h.2.2.1.trans (by rfl),
   h.2.2.2.2.2.2.2.trans (by decide)⟩

/-- C5: when the scope operation behind `Variable`, `Rule` or `Build`
(`AddLocalVariable`, `AddLocalRule`, `parseBuildParams`, on the reparented
scope) returns an error, the call panics with that error: the accumulated
errors and `Failed()` are as before, and the Build Action Set is as before. -/
theorem scope_error_is_fatal (m : moduleContext E) (callers : List Frame) :
    (∀ name value sc err,
      E.AddLocalVariable (E.ReparentToCallerPackage m.scope 2
        (moduleContext.stackInside "(*moduleContext).Variable" callers)) name value
        = (sc, .error err) →
      (m.Variable callers name value).outcome = .error (.scopeError err) ∧
      (m.Variable callers name value).ctx.errs = m.errs ∧
      (m.Variable callers name value).ctx.Failed = m.Failed ∧
      (m.Variable callers name value).ctx.actionDefs = m.actionDefs) ∧
    (∀ name params argNames sc err,
      E.AddLocalRule (E.ReparentToCallerPackage m.scope 2
        (moduleContext.stackInside "(*moduleContext).Rule" callers)) name params argNames
        = (sc, .error err) →
      (m.Rule callers name params argNames).outcome = .error (.scopeError err) ∧
      (m.Rule callers name params argNames).ctx.errs = m.errs ∧
      (m.Rule callers name params argNames).ctx.Failed = m.Failed ∧
      (m.Rule callers name params argNames).ctx.actionDefs = m.actionDefs) ∧
    (∀ params sc err,
      E.parseBuildParams (E.ReparentToCallerPackage m.scope 2
        (moduleContext.stackInside "(*moduleContext).Build" callers)) params
        = (sc, .error err) →
      (m.Build callers params).outcome = .error (.scopeError err) ∧
      (m.Build callers params).ctx.errs = m.errs ∧
      (m.Build callers params).ctx.Failed = m.Failed ∧
      (m.Build callers params).ctx.actionDefs = m.actionDefs) := by
  refine ⟨?_, ?_, ?_⟩
  · intro name value sc err h
    simp [moduleContext.Variable, h, moduleContext.Failed]
  · intro name params argNames sc err h
    simp [moduleContext.Rule, h, moduleContext.Failed]
  · intro params sc err h
    simp [moduleContext.Build, h, moduleContext.Failed]

/-- C5 at a concrete input: the scope rejects the empty variable name as
malformed; `Variable` then panics with that error and the fresh context of
`N` still has no error and an empty Build Action Set. -/
theorem scope_error_is_fatal_witness :
    (Example.ctxN.Variable (Example.logicOf "cc" :: Example.driver) "" "x").outcome =
      .error (.scopeError (ScopeError.malformed "")) ∧
    (Example.ctxN.Variable (Example.logicOf "cc" :: Example.driver) "" "x").ctx.errs =
      Example.ctxN.errs ∧
    (Example.ctxN.Variable (Example.logicOf "cc" :: Example.driver) "" "x").ctx.Failed =
      Example.ctxN.Failed ∧
    (Example.ctxN.Variable (Example.logicOf "cc" :: Example.driver) "" "x").ctx.actionDefs =
      Example.ctxN.actionDefs :=
  (scope_error_is_fatal Example.ctxN (Example.logicOf "cc" :: Example.driver)).1 "" "x"
    { pkg := "cc", decls := [] } (ScopeError.malformed "") (by rfl)

end Declarations

/-! ## Attribution of declarations to the calling package -/

section Attribution

variable {W : Wellformedness}

theorem reparent_to_calling_package (s : localScope) (method : String) (path : CallPath)
    (outer : List Frame) :
    localScope.ReparentToCallerPackage s 2
        (moduleContext.stackInside method (path.callers outer)) =
      { pkg := path.callingPackage, decls := s.decls } := by
  cases path <;>
    simp [localScope.ReparentToCallerPackage, moduleContext.stackInside, CallPath.callers,
      CallPath.callingPackage]

theorem reparent_decls (s : localScope) (skip : Nat) (stack : List Frame) :
    (localScope.ReparentToCallerPackage s skip stack).decls = s.decls := by
  unfold localScope.ReparentToCallerPackage
  split <;> rfl

theorem declared_append (decls : List Declaration) (pkg : String) (e : Declaration)
    (p n : String) :
    localScope.declared { pkg := pkg, decls := decls ++ [e] } p n =
      (localScope.declared { pkg := pkg, decls := decls } p n ||
        (decide (e.owner = p) && decide (e.name = n))) := by
  simp [localScope.declared]

theorem declared_pkg_irrelevant (s : localScope) (pkg p n : String) :
    localScope.declared { pkg := pkg, decls := s.decls } p n = localScope.declared s p n := rfl

/-- A well-formed declaration of a name that its calling package has not
declared yet returns, and leaves the scope with one more entry, owned by the
calling package. -/
theorem declaration_call (m : moduleContext (specExternals W)) (d : DeclCall)
    (hwf : d.wellFormed W = true)
    (hnew : localScope.declared m.scope d.path.callingPackage d.name = false) :
    ((d.op W).call m).returned = true ∧
    ((d.op W).call m).ctx.scope =
      ({ pkg := d.path.callingPackage, decls := m.scope.decls ++ [d.entry] } : localScope) := by
  obtain ⟨path, outer, name, kind⟩ := d
  have hnew2 : localScope.declared
      { pkg := path.callingPackage, decls := (m.scope : localScope).decls }
      path.callingPackage name = false := hnew
  cases kind with
  | Variable value =>
    have hok : W.variableOk name value = true := hwf
    simp only [DeclCall.op, Op.call, moduleContext.Variable, specExternals,
      reparent_to_calling_package, localScope.AddLocalVariable, hok, hnew2]
    simp [Call.returned, DeclCall.entry]
  | Rule params argNames =>
    have hok : W.ruleOk name params argNames = true := hwf
    simp only [DeclCall.op, Op.call, moduleContext.Rule, specExternals,
      reparent_to_calling_package, localScope.AddLocalRule, hok, hnew2]
    simp [Call.returned, DeclCall.entry, Except.map]

theorem entry_owner (d : DeclCall) : d.entry.owner = d.path.callingPackage := by
  obtain ⟨path, outer, name, kind⟩ := d
  cases kind <;> rfl

theorem entry_name (d : DeclCall) : d.entry.name = d.name := by
  obtain ⟨path, outer, name, kind⟩ := d
  cases kind <;> rfl

/-- C8: in every sequence of well-formed `Variable` and `Rule` declarations
in which no calling package declares the same name twice (so in every sequence
in which two distinct packages declare one common name), each call made by the
module's logic itself or through one extra call frame of a helper function,
on a scope where the names are not declared yet: every call returns (no
collision fault), and the scope gains, in call order, one entry per
declaration, owned by the package whose code called the context. -/
theorem declarations_attributed_to_caller (m : moduleContext (specExternals W))
    (ds : List DeclCall)
    (hwf : ∀ d ∈ ds, d.wellFormed W = true)
    (hnew : ∀ d ∈ ds, localScope.declared m.scope d.path.callingPackage d.name = false)
    (hdistinct : (ds.map DeclCall.key).Nodup) :
    allReturn m (ds.map (DeclCall.op W)) = true ∧
    localScope.decls (run m (ds.map (DeclCall.op W))).scope =
      localScope.decls m.scope ++ ds.map DeclCall.entry := by
  induction ds generalizing m with
  | nil => simp [allReturn, run]
  | cons d ds ih =>
    obtain ⟨hret, hscope⟩ := declaration_call m d (hwf d (List.mem_cons_self _ _))
      (hnew d (List.mem_cons_self _ _))
    rw [List.map_cons, List.nodup_cons] at hdistinct
    have hnew1 : ∀ x ∈ ds, localScope.declared ((d.op W).call m).ctx.scope
        x.path.callingPackage x.name = false := by
      intro x hx
      rw [hscope, declared_append, declared_pkg_irrelevant,
        hnew x (List.mem_cons_of_mem _ hx), entry_owner, entry_name]
      have hne : x.key ≠ d.key := by
        intro h
        exact hdistinct.1 (h ▸ List.mem_map_of_mem DeclCall.key hx)
      simp only [DeclCall.key, ne_eq, Prod.mk.injEq, not_and] at hne
      simp only [Bool.false_or, Bool.and_eq_false_imp, decide_eq_true_eq, decide_eq_false_iff_not]
      intro h1 h2
      exact hne h1.symm h2.symm
    obtain ⟨iret, iscope⟩ := ih ((d.op W).call m).ctx
      (fun x hx => hwf x (List.mem_cons_of_mem _ hx)) hnew1 hdistinct.2
    refine ⟨?_, ?_⟩
    · simp only [List.map_cons, allReturn, hret, iret, Bool.and_self]
    · simp only [List.map_cons, run]
      rw [iscope, hscope]
      simp

/-- C8 at a concrete input: package `cc` declares `link` directly and package
`java` declares `link` through a helper; both calls return and the scope
attributes one `link` to `cc` and the other to `java`. -/
theorem declarations_attributed_to_caller_witness :
    allReturn Example.ctxM (Example.twoPackages.map (DeclCall.op Example.W)) = true ∧
    localScope.decls (run Example.ctxM (Example.twoPackages.map (DeclCall.op Example.W))).scope =
      [{ owner := "cc", name := "link",
         object := .var { pkg := "cc", name := "link", value := "ld" } },
       { owner := "java", name := "link",
         object := .rule { pkg := "java", name := "link", params := { Command := "jar $in" },
                           argNames := [] } }] :=
  have h := declarations_attributed_to_caller Example.ctxM Example.twoPackages
    (by decide) (by decide) (by decide)
  ⟨h.1, h.2.trans (by rfl)⟩

theorem declared_mono_call (m : moduleContext (specExternals W)) (op : Op (specExternals W))
    (p n : String) (h : localScope.declared m.scope p n = true) :
    localScope.declared (op.call m).ctx.scope p n = true := by
  have key : ∀ (s : localScope) (extra : List Declaration),
      s.decls = (m.scope : localScope).decls ++ extra → localScope.declared s p n = true := by
    intro s extra hs
    simp only [localScope.declared, hs, List.any_append, Bool.or_eq_true]
    exact Or.inl h
  cases op with
  | Errorf pos format args => exact h
  | ModuleErrorf format args => exact h
  | PropertyErrorf property format args =>
    simp only [Op.call, moduleContext.PropertyErrorf]
    split <;> exact h
  | OtherModuleErrorf module format args =>
    simp only [Op.call, moduleContext.OtherModuleErrorf]
    split <;> exact h
  | AddNinjaFileDeps deps => exact h
  | Variable callers name value =>
    simp only [Op.call, moduleContext.Variable, specExternals, localScope.AddLocalVariable]
    split_ifs
    · exact key _ [] (by simp [reparent_decls])
    · exact key _ [] (by simp [reparent_decls])
    · exact key _ _ (by simp only [reparent_decls]; rfl)
  | Rule callers name params argNames =>
    simp only [Op.call, moduleContext.Rule, specExternals, localScope.AddLocalRule]
    split_ifs
    · exact key _ [] (by simp [reparent_decls])
    · exact key _ [] (by simp [reparent_decls])
    · exact key _ _ (by simp only [reparent_decls]; rfl)
  | Build callers params =>
    simp only [Op.call, moduleContext.Build, specExternals, localScope.parseBuildParams]
    cases W.parseBuild (localScope.ReparentToCallerPackage m.scope 2
      (moduleContext.stackInside "(*moduleContext).Build" callers)) params <;>
      exact key _ [] (by simp [reparent_decls])

theorem declared_mono_run (ops : List (Op (specExternals W)))
    (m : moduleContext (specExternals W)) (p n : String)
    (h : localScope.declared m.scope p n = true) :
    localScope.declared (run m ops).scope p n = true := by
  induction ops generalizing m with
  | nil => exact h
  | cons op ops ih => exact ih _ (declared_mono_call m op p n h)

/-- After a declaration that returned, the scope has the name declared by the
calling package. -/
theorem declared_after_call (m : moduleContext (specExternals W)) (d : DeclCall)
    (hret : ((d.op W).call m).returned = true) :
    localScope.declared ((d.op W).call m).ctx.scope d.path.callingPackage d.name = true := by
  obtain ⟨path, outer, name, kind⟩ := d
  cases kind with
  | Variable value =>
    simp only [DeclCall.op, Op.call, moduleContext.Variable, specExternals,
      reparent_to_calling_package, localScope.AddLocalVariable] at hret ⊢
    split_ifs at hret ⊢
    · simp [Call.returned] at hret
    · simp [Call.returned] at hret
    · simp [localScope.declared]
  | Rule params argNames =>
    simp only [DeclCall.op, Op.call, moduleContext.Rule, specExternals,
      reparent_to_calling_package, localScope.AddLocalRule] at hret ⊢
    split_ifs at hret ⊢
    · simp [Call.returned, Except.map] at hret
    · simp [Call.returned, Except.map] at hret
    · simp [localScope.declared]

/-- A declaration of a name that its calling package has declared already
panics and leaves the Build Action Set as it was; when the declaration is well
formed, the panic carries the scope's duplicate-definition error. -/
theorem redeclaration_call (m : moduleContext (specExternals W)) (d : DeclCall)
    (hdecl : localScope.declared m.scope d.path.callingPackage d.name = true) :
    ((d.op W).call m).panicked = true ∧
    ((d.op W).call m).ctx.actionDefs = m.actionDefs ∧
    (d.wellFormed W = true → ((d.op W).call m).outcome =
      .error (.scopeError (ScopeError.duplicate d.path.callingPackage d.name))) := by
  obtain ⟨path, outer, name, kind⟩ := d
  have hdecl2 : localScope.declared
      { pkg := path.callingPackage, decls := (m.scope : localScope).decls }
      path.callingPackage name = true := hdecl
  cases kind with
  | Variable value =>
    simp only [DeclCall.op, Op.call, moduleContext.Variable, specExternals,
      reparent_to_calling_package, localScope.AddLocalVariable, hdecl2, DeclCall.wellFormed]
    split_ifs with h1
    · simp [Call.panicked, h1]
    · simp [Call.panicked]
  | Rule params argNames =>
    simp only [DeclCall.op, Op.call, moduleContext.Rule, specExternals,
      reparent_to_calling_package, localScope.AddLocalRule, hdecl2, DeclCall.wellFormed]
    split_ifs with h1
    · simp [Call.panicked, h1, Except.map]
    · simp [Call.panicked, Except.map]

/-- C9: when a calling package has declared a name through the context
(`Variable` or `Rule`, directly or through a helper) and the call returned,
then after any further calls a second declaration of that name by the same
calling package (`Variable` or `Rule`) panics and adds nothing to the Build
Action Set; the panic carries the scope's duplicate-definition error whenever
the second declaration is otherwise well formed. -/
theorem redeclaration_by_same_package_faults (m : moduleContext (specExternals W))
    (first second : DeclCall) (between : List (Op (specExternals W)))
    (hpkg : second.path.callingPackage = first.path.callingPackage)
    (hname : second.name = first.name)
    (hfirst : ((first.op W).call m).returned = true) :
    ((second.op W).call (run ((first.op W).call m).ctx between)).panicked = true ∧
    ((second.op W).call (run ((first.op W).call m).ctx between)).ctx.actionDefs =
      (run ((first.op W).call m).ctx between).actionDefs ∧
    (second.wellFormed W = true →
      ((second.op W).call (run ((first.op W).call m).ctx between)).outcome =
        .error (.scopeError
          (ScopeError.duplicate second.path.callingPackage second.name))) := by
  apply redeclaration_call
  rw [hpkg, hname]
  exact declared_mono_run between _ _ _ (declared_after_call m first hfirst)

/-- C9 at a concrete input: package `cc` declares the variable `link`, package
`java` then declares a rule `link`, and `cc` declares the variable `link`
again, through a helper: the last call panics with the duplicate-definition
error and the Build Action Set keeps its one variable and one rule. -/
theorem redeclaration_by_same_package_faults_witness :
    ((Example.again.op Example.W).call
        (run Example.ctxM (Example.twoPackages.map (DeclCall.op Example.W)))).outcome =
      .error (.scopeError (ScopeError.duplicate "cc" "link")) ∧
    ((Example.again.op Example.W).call
        (run Example.ctxM (Example.twoPackages.map (DeclCall.op Example.W)))).ctx.actionDefs =
      { variables_ := [{ pkg := "cc", name := "link", value := "ld" }],
        rules := [{ pkg := "java", name := "link", params := { Command := "jar $in" },
                    argNames := [] }],
        buildDefs := [] } :=
  have h := redeclaration_by_same_package_faults Example.ctxM
    { path := .direct (Example.logicOf "cc"), outer := Example.driver, name := "link",
      kind := .Variable "ld" }
    Example.again
    [DeclCall.op Example.W
      { path := .viaHelper (Example.helperOf "java") (Example.logicOf "java"),
        outer := Example.driver, name := "link", kind := .Rule { Command := "jar $in" } [] }]
    (by rfl) (by rfl) (by decide)
  ⟨h.2.2 (by decide), h.2.1.trans (by rfl)⟩

end Attribution

/-! ## Dependency traversal -/

section Traversal

variable (c : Context)

theorem foldl_record (t acc : List Module) : t.foldl Context.record acc = acc ++ t := by
  induction t generalizing acc with
  | nil => simp
  | cons y t ih => simp [List.foldl, Context.record, ih]

theorem walk_zero {σ : Type} (visit : σ → Module → σ) (st : List Module × σ) (x : Module) :
    c.walk visit 0 st x = st := rfl

theorem walk_succ {σ : Type} (visit : σ → Module → σ) (fuel : Nat) (V : List Module)
    (s : σ) (x : Module) :
    c.walk visit (fuel + 1) (V, s) x =
      if x ∈ V then (V, s)
      else (((c.directDeps x).foldl (c.walk visit fuel) (x :: V, s)).1,
            visit ((c.directDeps x).foldl (c.walk visit fuel) (x :: V, s)).2 x) := rfl

/-- A fold of walks with any visit function marks what the recording fold
marks and applies the visit function to the recorded modules in order, as
soon as single walks do. -/
theorem foldl_walk_eq_record (fuel : Nat)
    (hw : ∀ (τ : Type) (v : τ → Module → τ) (V : List Module) (s : τ) (x : Module),
      c.walk v fuel (V, s) x =
        ((c.walk Context.record fuel (V, []) x).1,
         (c.walk Context.record fuel (V, []) x).2.foldl v s))
    (l : List Module) :
    ∀ (σ : Type) (visit : σ → Module → σ) (V : List Module) (s : σ),
      l.foldl (c.walk visit fuel) (V, s) =
        ((l.foldl (c.walk Context.record fuel) (V, [])).1,
         (l.foldl (c.walk Context.record fuel) (V, [])).2.foldl visit s) := by
  induction l with
  | nil => intro σ visit V s; rfl
  | cons y l ih =>
    intro σ visit V s
    simp only [List.foldl_cons]
    rw [hw σ visit V s y, ih σ visit]
    have h1 : l.foldl (c.walk Context.record fuel) (c.walk Context.record fuel (V, []) y) =
        ((l.foldl (c.walk Context.record fuel)
            ((c.walk Context.record fuel (V, []) y).1, [])).1,
         (l.foldl (c.walk Context.record fuel)
            ((c.walk Context.record fuel (V, []) y).1, [])).2.foldl Context.record
              (c.walk Context.record fuel (V, []) y).2) :=
      ih (List Module) Context.record _ _
    rw [h1]
    simp [foldl_record, List.foldl_append]

theorem walk_eq_record : ∀ (fuel : Nat) (σ : Type) (visit : σ → Module → σ)
    (V : List Module) (s : σ) (x : Module),
    c.walk visit fuel (V, s) x =
      ((c.walk Context.record fuel (V, []) x).1,
       (c.walk Context.record fuel (V, []) x).2.foldl visit s)
  | 0 => by intro σ visit V s x; rfl
  | fuel + 1 => by
    intro σ visit V s x
    rw [walk_succ, walk_succ]
    by_cases hx : x ∈ V
    · simp [hx]
    · simp only [hx, if_false]
      rw [foldl_walk_eq_record c fuel (walk_eq_record fuel) (c.directDeps x) σ visit]
      simp [Context.record, List.foldl_append]

/-- A recording fold started with visits already recorded: the marks are the
same and the new visits come after the recorded ones. -/
theorem foldl_record_from (fuel : Nat) (l V t : List Module) :
    l.foldl (c.walk Context.record fuel) (V, t) =
      ((l.foldl (c.walk Context.record fuel) (V, [])).1,
       t ++ (l.foldl (c.walk Context.record fuel) (V, [])).2) := by
  rw [foldl_walk_eq_record c fuel (walk_eq_record c fuel) l (List Module) Context.record V t,
    foldl_record]

theorem visits_nil (V start : List Module) : c.Visits V start (V, []) := by
  refine ⟨fun y => by simp, fun y hy => by simp at hy, List.nodup_nil, fun y hy => by simp at hy⟩

theorem visits_foldl (fuel : Nat)
    (hw : ∀ V x, c.Visits V [x] (c.walk Context.record fuel (V, []) x)) (l : List Module) :
    ∀ V, c.Visits V l (l.foldl (c.walk Context.record fuel) (V, [])) := by
  induction l with
  | nil => intro V; exact visits_nil c V []
  | cons y l ih =>
    intro V
    obtain ⟨a1, b1, c1, d1⟩ := hw V y
    obtain ⟨a2, b2, c2, d2⟩ := ih (c.walk Context.record fuel (V, []) y).1
    have hstep : (y :: l).foldl (c.walk Context.record fuel) (V, []) =
        ((l.foldl (c.walk Context.record fuel) ((c.walk Context.record fuel (V, []) y).1, [])).1,
         (c.walk Context.record fuel (V, []) y).2 ++
          (l.foldl (c.walk Context.record fuel)
            ((c.walk Context.record fuel (V, []) y).1, [])).2) := by
      rw [List.foldl_cons]
      exact foldl_record_from c fuel l _ _
    rw [hstep]
    refine ⟨?_, ?_, ?_, ?_⟩
    · intro w
      simp only [List.mem_append]
      rw [a2 w, a1 w, or_assoc]
    · intro w hw2
      simp only [List.mem_append] at hw2
      rcases hw2 with h | h
      · exact b1 w h
      · exact fun hV => b2 w h ((a1 w).2 (Or.inl hV))
    · simp only []
      rw [List.nodup_append]
      refine ⟨c1, c2, ?_⟩
      intro w h1 h2
      exact b2 w h2 ((a1 w).2 (Or.inr h1))
    · intro w hw2
      simp only [List.mem_append] at hw2
      rcases hw2 with h | h
      · obtain ⟨z, hz, hr⟩ := d1 w h
        simp only [List.mem_singleton] at hz
        exact ⟨y, List.mem_cons_self _ _, hz ▸ hr⟩
      · obtain ⟨z, hz, hr⟩ := d2 w h
        exact ⟨z, List.mem_cons_of_mem _ hz, hr⟩

theorem visits_walk : ∀ (fuel : Nat) (V : List Module) (x : Module),
    c.Visits V [x] (c.walk Context.record fuel (V, []) x)
  | 0 => fun V x => visits_nil c V [x]
  | fuel + 1 => by
    intro V x
    rw [walk_succ]
    by_cases hx : x ∈ V
    · simp only [hx, if_true]
      exact visits_nil c V [x]
    · simp only [hx, if_false]
      obtain ⟨a, b, d, e⟩ := visits_foldl c fuel (visits_walk fuel) (c.directDeps x) (x :: V)
      refine ⟨?_, ?_, ?_, ?_⟩
      · intro w
        simp only [Context.record, List.mem_append, List.mem_singleton]
        rw [a w]
        simp only [List.mem_cons]
        tauto
      · intro w hw
        simp only [Context.record, List.mem_append, List.mem_singleton] at hw
        rcases hw with h | h
        · exact fun hV => b w h (List.mem_cons_of_mem _ hV)
        · exact h ▸ hx
      · simp only [Context.record]
        rw [List.nodup_append]
        refine ⟨d, List.nodup_singleton x, ?_⟩
        intro w h1 h2
        simp only [List.mem_singleton] at h2
        exact b w h1 (h2 ▸ List.mem_cons_self _ _)
      · intro w hw
        simp only [Context.record, List.mem_append, List.mem_singleton] at hw
        rcases hw with h | h
        · obtain ⟨z, hz, hr⟩ := e w h
          exact ⟨x, List.mem_singleton_self x, Relation.ReflTransGen.head hz hr⟩
        · exact ⟨x, List.mem_singleton_self x, h ▸ Relation.ReflTransGen.refl⟩

theorem unreached_mono (V V2 : List Module) (h : ∀ y ∈ V, y ∈ V2) :
    c.unreached V2 ≤ c.unreached V := by
  unfold Context.unreached
  apply List.countP_mono_left
  intro e _ he
  simp only [decide_eq_true_eq] at he ⊢
  exact fun hV => he (h _ hV)

theorem countP_lt_of_mem {α : Type} (p q : α → Bool) (l : List α)
    (himp : ∀ a, p a = true → q a = true) (e : α) (he : e ∈ l) (hq : q e = true)
    (hp : p e = false) : l.countP p < l.countP q := by
  induction l with
  | nil => simp at he
  | cons a l ih =>
    have hle : l.countP p ≤ l.countP q := List.countP_mono_left (fun a _ h => himp a h)
    rcases List.mem_cons.1 he with h | h
    · subst h
      simp only [List.countP_cons, hq, hp]
      simp
      omega
    · have hlt := ih h
      simp only [List.countP_cons]
      by_cases hpa : p a = true
      · simp only [hpa, himp a hpa]
        omega
      · by_cases hqa : q a = true
        · simp only [hpa, hqa]
          simp
          omega
        · simp only [hpa, hqa]
          simp
          omega

theorem unreached_lt (V : List Module) (x z : Module) (hx : x ∉ V)
    (hz : z ∈ c.directDeps x) : c.unreached (x :: V) < c.unreached V := by
  simp only [Context.directDeps, List.mem_map, List.mem_filter, decide_eq_true_eq] at hz
  obtain ⟨e, ⟨he, hex⟩, _⟩ := hz
  unfold Context.unreached
  apply countP_lt_of_mem _ _ _ _ e he
  · simp only [decide_eq_true_eq]
    rw [hex]
    exact hx
  · simp [hex]
  · intro a
    simp only [decide_eq_true_eq, List.mem_cons, not_or]
    exact fun h => h.2

theorem covers_foldl (fuel : Nat)
    (hw : ∀ V x, c.unreached V < fuel →
      c.Covers V [x] (c.walk Context.record fuel (V, []) x).1)
    (l : List Module) :
    ∀ V, (l ≠ [] → c.unreached V < fuel) →
      c.Covers V l (l.foldl (c.walk Context.record fuel) (V, [])).1 := by
  induction l with
  | nil =>
    intro V _
    exact ⟨fun z hz => by simp at hz, fun y hy hn => absurd hy hn⟩
  | cons y l ih =>
    intro V hU
    have hU1 : c.unreached V < fuel := hU (List.cons_ne_nil _ _)
    obtain ⟨p1, q1⟩ := hw V y hU1
    obtain ⟨a1, -, -, -⟩ := visits_walk c fuel V y
    have hsub1 : ∀ w ∈ V, w ∈ (c.walk Context.record fuel (V, []) y).1 :=
      fun w hw => (a1 w).2 (Or.inl hw)
    have hU2 : c.unreached (c.walk Context.record fuel (V, []) y).1 < fuel :=
      Nat.lt_of_le_of_lt (unreached_mono c _ _ hsub1) hU1
    obtain ⟨p2, q2⟩ := ih (c.walk Context.record fuel (V, []) y).1 (fun _ => hU2)
    obtain ⟨a2, -, -, -⟩ := visits_foldl c fuel (visits_walk c fuel) l
      (c.walk Context.record fuel (V, []) y).1
    have hstep : ((y :: l).foldl (c.walk Context.record fuel) (V, [])).1 =
        (l.foldl (c.walk Context.record fuel)
          ((c.walk Context.record fuel (V, []) y).1, [])).1 := by
      rw [List.foldl_cons]
      have h := foldl_record_from c fuel l (c.walk Context.record fuel (V, []) y).1
        (c.walk Context.record fuel (V, []) y).2
      have h2 := congrArg Prod.fst h
      exact h2
    rw [hstep]
    refine ⟨?_, ?_⟩
    · intro z hz
      rcases List.mem_cons.1 hz with h | h
      · exact (a2 z).2 (Or.inl (h ▸ p1 y (List.mem_singleton_self y)))
      · exact p2 z h
    · intro w hw hn z hz
      by_cases h1 : w ∈ (c.walk Context.record fuel (V, []) y).1
      · exact (a2 z).2 (Or.inl (q1 w h1 hn z hz))
      · exact q2 w hw h1 z hz

theorem covers_walk : ∀ (fuel : Nat) (V : List Module) (x : Module),
    c.unreached V < fuel → c.Covers V [x] (c.walk Context.record fuel (V, []) x).1
  | 0 => fun V x h => absurd h (Nat.not_lt_zero _)
  | fuel + 1 => by
    intro V x hU
    rw [walk_succ]
    by_cases hx : x ∈ V
    · simp only [hx, if_true]
      refine ⟨fun z hz => ?_, fun y hy hn => absurd hy hn⟩
      simp only [List.mem_singleton] at hz
      exact hz ▸ hx
    · simp only [hx, if_false]
      have hfuel : c.directDeps x ≠ [] → c.unreached (x :: V) < fuel := by
        intro hne
        obtain ⟨z, hz⟩ := List.exists_mem_of_ne_nil _ hne
        have := unreached_lt c V x z hx hz
        omega
      obtain ⟨p, q⟩ := covers_foldl c fuel (covers_walk fuel) (c.directDeps x) (x :: V) hfuel
      obtain ⟨a, -, -, -⟩ := visits_foldl c fuel (visits_walk c fuel) (c.directDeps x) (x :: V)
      refine ⟨?_, ?_⟩
      · intro z hz
        simp only [List.mem_singleton] at hz
        exact (a z).2 (Or.inl (hz ▸ List.mem_cons_self _ _))
      · intro w hw hn z hz
        by_cases hwx : w = x
        · exact p z (hwx ▸ hz)
        · exact q w hw (by simp [hwx, hn]) z hz

/-- The recording traversal visits each reachable dependency of the module,
and nothing else, exactly once. -/
theorem visitDepsDepthFirst_record (root : Module) :
    (c.visitDepsDepthFirst root Context.record []).Nodup ∧
    ∀ x, x ∈ c.visitDepsDepthFirst root Context.record [] ↔ c.reachableDep root x := by
  obtain ⟨a, -, d, e⟩ := visits_foldl c (c.edges.length + 1) (visits_walk c _)
    (c.directDeps root) []
  have hU : c.unreached [] < c.edges.length + 1 :=
    Nat.lt_succ_of_le (List.countP_le_length _)
  obtain ⟨p, q⟩ := covers_foldl c (c.edges.length + 1) (covers_walk c _) (c.directDeps root) []
    (fun _ => hU)
  refine ⟨d, fun x => ⟨?_, ?_⟩⟩
  · intro hx
    obtain ⟨z, hz, hr⟩ := e x hx
    exact Relation.TransGen.head' hz hr
  · intro hx
    have hmem : ∀ y, y ∈ ((c.directDeps root).foldl
        (c.walk Context.record (c.edges.length + 1)) ([], [])).1 →
        y ∈ c.visitDepsDepthFirst root Context.record [] := by
      intro y hy
      rcases (a y).1 hy with h | h
      · simp at h
      · exact h
    induction hx with
    | single h => exact hmem _ (p _ h)
    | tail _ h ih => exact hmem _ (q _ ((a _).2 (Or.inr ih)) (by simp) _ h)

theorem walkIf_false {σ : Type} (visit : σ → Module → σ) (fuel : Nat)
    (st : List Module × σ) (x : Module) :
    c.walkIf (fun _ => false) visit fuel st x = st := by
  cases fuel with
  | zero => rfl
  | succ fuel => simp [Context.walkIf]

theorem foldl_walkIf_false {σ : Type} (visit : σ → Module → σ) (fuel : Nat)
    (l : List Module) (st : List Module × σ) :
    l.foldl (c.walkIf (fun _ => false) visit fuel) st = st := by
  induction l with
  | nil => rfl
  | cons y l ih => rw [List.foldl_cons, walkIf_false, ih]

theorem walkIf_true {σ : Type} (visit : σ → Module → σ) : ∀ (fuel : Nat),
    c.walkIf (fun _ => true) visit fuel = c.walk visit fuel
  | 0 => rfl
  | fuel + 1 => by
    funext st x
    simp only [Context.walkIf, Context.walk, walkIf_true visit fuel, if_true]

/-- C10: `VisitDepsDepthFirstIf` with a predicate that is always false calls
the visit function on no module; with a predicate that is always true it does
what `VisitDepsDepthFirst` does, so it visits the same modules; both start
from the context's own module, and the modules `VisitDepsDepthFirst` calls the
visit function on (whatever the visit function) are the reachable
dependencies of that module, each exactly once. -/
theorem VisitDepsDepthFirstIf_filters {E : Externals} (m : moduleContext E) :
    (∀ (σ : Type) (visit : σ → Module → σ) (s : σ),
      m.VisitDepsDepthFirstIf (fun _ => false) visit s = s) ∧
    m.visitedByDepthFirstIf (fun _ => false) = [] ∧
    (∀ (σ : Type) (visit : σ → Module → σ) (s : σ),
      m.VisitDepsDepthFirstIf (fun _ => true) visit s = m.VisitDepsDepthFirst visit s) ∧
    m.visitedByDepthFirstIf (fun _ => true) = m.visitedByDepthFirst ∧
    (∀ (σ : Type) (visit : σ → Module → σ) (s : σ),
      m.VisitDepsDepthFirst visit s = m.visitedByDepthFirst.foldl visit s) ∧
    m.visitedByDepthFirst.Nodup ∧
    (∀ x, x ∈ m.visitedByDepthFirst ↔ m.context.reachableDep m.module x) := by
  have hfalse : ∀ (σ : Type) (visit : σ → Module → σ) (s : σ),
      m.VisitDepsDepthFirstIf (fun _ => false) visit s = s := by
    intro σ visit s
    simp only [moduleContext.VisitDepsDepthFirstIf, Context.visitDepsDepthFirstIf,
      foldl_walkIf_false]
  have htrue : ∀ (σ : Type) (visit : σ → Module → σ) (s : σ),
      m.VisitDepsDepthFirstIf (fun _ => true) visit s = m.VisitDepsDepthFirst visit s := by
    intro σ visit s
    simp only [moduleContext.VisitDepsDepthFirstIf, Context.visitDepsDepthFirstIf,
      moduleContext.VisitDepsDepthFirst, Context.visitDepsDepthFirst, walkIf_true]
  refine ⟨hfalse, hfalse _ _ _, htrue, htrue _ _ _, ?_,
    (visitDepsDepthFirst_record m.context m.module).1,
    (visitDepsDepthFirst_record m.context m.module).2⟩
  intro σ visit s
  simp only [moduleContext.visitedByDepthFirst, moduleContext.VisitDepsDepthFirst,
    Context.visitDepsDepthFirst]
  rw [foldl_walk_eq_record m.context _ (walk_eq_record m.context _) _ σ visit [] s]

/-- C10 at a concrete input: in a graph with a diamond and a cycle below
module 0, the traversals of module 0's context visit the modules 4, 3, 1 and
2, each once, and the filtered traversal with an always-false predicate
visits none. -/
theorem VisitDepsDepthFirstIf_filters_witness :
    Example.ctxN.visitedByDepthFirstIf (fun _ => false) = [] ∧
    Example.ctxN.visitedByDepthFirstIf (fun _ => true) = [4, 3, 1, 2] ∧
    Example.ctxN.visitedByDepthFirst = [4, 3, 1, 2] :=
  have h := VisitDepsDepthFirstIf_filters Example.ctxN
  ⟨h.2.1, h.2.2.2.1.trans (by decide), by decide⟩

end Traversal

end Blueprint
